import Mathlib

/-!
Verification of the briefly ingestion / durable-queue / orchestration core.

The Go source is shallowly embedded: pure helpers become Lean functions,
stateful code becomes explicit state passing, external collaborators
(extractor, summarizer, filesystem, clock, notifier) are supplied as
explicit parameters.  Strings stay Lean `String`s; machine integers do not
occur in the modelled code paths; `time.Time` values are abstracted to
`Nat` ticks; durations are tracked in seconds (processor) resp.
milliseconds (watcher), matching the units of the constants in the source.
-/

namespace Briefly

/-! ## Small string helpers modelling the Go standard library

The Lean core `String` functions do not reduce inside the kernel, so the
Go `strings` functions used by the program are re-implemented here by
structural recursion over the underlying character lists (which do
reduce), with `String` kept at the interfaces. -/

/-- Go `unicode.IsSpace` on the ASCII whitespace the program encounters. -/
def chIsSpace (c : Char) : Bool :=
  c = ' ' ∨ c = '\t' ∨ c = '\n' ∨ c = '\r'

def trimLeadTrail (p : Char → Bool) (l : List Char) : List Char :=
  ((l.dropWhile p).reverse.dropWhile p).reverse

/-- Go `strings.TrimSpace` (ASCII whitespace subset). -/
def sTrim (s : String) : String :=
  String.mk (trimLeadTrail chIsSpace s.toList)

/-- Go `strings.HasPrefix`. -/
def sStartsWith (s pre : String) : Bool :=
  pre.toList.isPrefixOf s.toList

/-- Go `strings.HasSuffix`. -/
def sEndsWith (s suf : String) : Bool :=
  suf.toList.reverse.isPrefixOf s.toList.reverse

/-- Go `ToLower` for a single ASCII character. -/
def chToLower (c : Char) : Char :=
  if 'A' ≤ c ∧ c ≤ 'Z' then Char.ofNat (c.toNat + 32) else c

/-- Go `strings.ToLower` (ASCII subset). -/
def sToLower (s : String) : String :=
  String.mk (s.toList.map chToLower)

/-- Go `strings.Join`. -/
def sIntercalate (sep : String) (xs : List String) : String :=
  String.mk (List.intercalate sep.toList (xs.map String.toList))

/-- The scan of Go `strings.Split` for a nonempty separator sequence,
fuelled to stay structural; `fuel = length + 1` always suffices. -/
def splitSeqFuel (sep : List Char) : Nat → List Char → List Char → List (List Char)
  | 0, l, acc => [acc.reverse ++ l]
  | _ + 1, [], acc => [acc.reverse]
  | fuel + 1, c :: rest, acc =>
    if sep.isPrefixOf (c :: rest) then
      acc.reverse :: splitSeqFuel sep fuel (List.drop sep.length (c :: rest)) []
    else splitSeqFuel sep fuel rest (c :: acc)

/-- Go `strings.Split s sep` for nonempty `sep`. -/
def sSplitOn (s sep : String) : List String :=
  (splitSeqFuel sep.toList (s.toList.length + 1) s.toList []).map String.mk

/-- Go `strings.Contains s sub` for nonempty `sub`: the split has more
than one part iff `sub` occurs in `s`. -/
def strContains (s sub : String) : Bool :=
  (sSplitOn s sub).length != 1

/-- Go `strings.SplitN s sep 3` for a nonempty separator: at most three
parts, the last part is the unsplit remainder. -/
def splitN3 (s sep : String) : List String :=
  match sSplitOn s sep with
  | [] => []
  | [a] => [a]
  | [a, b] => [a, b]
  | a :: b :: rest => [a, b, sIntercalate sep rest]

/-- Go `strings.TrimSuffix`. -/
def trimSuffix (s suffix : String) : String :=
  if sEndsWith s suffix then
    String.mk (s.toList.take (s.toList.length - suffix.toList.length))
  else s

/-! ## Data model (internal/models/job.go) -/

/-- Go `type ContentType string`; the three constants below are the values
used by the program, but (as in Go) the type itself is an open string. -/
abbrev ContentType := String

def ContentTypeYouTube : ContentType := "youtube"

def ContentTypeText : ContentType := "text"

def ContentTypeUnknown : ContentType := "unknown"

/-- Go `type JobStatus string`. -/
abbrev JobStatus := String

def JobStatusPending : JobStatus := "pending"

def JobStatusProcessing : JobStatus := "processing"

def JobStatusCompleted : JobStatus := "completed"

def JobStatusFailed : JobStatus := "failed"

/-- Go `models.Job`.  `CreatedAt`/`UpdatedAt` are abstract `Nat` ticks. -/
structure Job where
  id : String
  filePath : String
  url : String
  customPrompt : String
  contentType : ContentType
  status : JobStatus
  content : String
  summary : String
  error : String
  createdAt : Nat
  updatedAt : Nat
  retries : Nat
deriving Repr, DecidableEq

/-- Go `models.NewJob`: the generated time-based ID and the current time
are abstracted into the parameters `id` and `now`. -/
def NewJob (id : String) (now : Nat) (filePath url customPrompt : String) : Job :=
  { id := id
    filePath := filePath
    url := url
    customPrompt := customPrompt
    contentType := ContentTypeUnknown
    status := JobStatusPending
    content := ""
    summary := ""
    error := ""
    createdAt := now
    updatedAt := now
    retries := 0 }

/-! ## URL parsing (modelled subset of Go net/url.Parse)

`DetectContentType` only consumes `u.Scheme` and `u.Host`, so the model
extracts exactly those.  The model follows net/url: the scheme is the
lower-cased alphanumeric prefix before the first `:` (starting with a
letter); a host is present only after `//`, runs up to the first of
`/ ? #`, drops a user-info part up to the last `@`, and is rejected (parse
error) when it contains a character net/url forbids in host names
(control characters, space, `<`, `>`, `"`). -/

def isSchemeStart (c : Char) : Bool :=
  (('a' ≤ c ∧ c ≤ 'z') ∨ ('A' ≤ c ∧ c ≤ 'Z'))

def isSchemeRest (c : Char) : Bool :=
  isSchemeStart c ∨ ('0' ≤ c ∧ c ≤ '9') ∨ c = '+' ∨ c = '-' ∨ c = '.'

/-- Go net/url `getScheme`: returns `(scheme, rest)`; a missing or invalid
scheme yields `("", rawURL)`; a leading `:` is a parse error (`none`). -/
def getScheme (raw : String) : Option (String × String) :=
  go raw.toList []
where
  go : List Char → List Char → Option (String × String)
  | [], _ => some ("", raw)
  | c :: rest, acc =>
    if isSchemeStart c then go rest (acc ++ [c])
    else if isSchemeRest c then
      if acc = [] then some ("", raw) else go rest (acc ++ [c])
    else if c = ':' then
      if acc = [] then none
      else some (String.mk acc, String.mk rest)
    else some ("", raw)

/-- Characters net/url rejects inside a host name (modelled subset). -/
def badHostChar (c : Char) : Bool :=
  c.toNat < 0x20 ∨ c = ' ' ∨ c = '<' ∨ c = '>' ∨ c = '"'

/-- Drop the user-info part: the host is what follows the last `@`. -/
def afterLastAt (l : List Char) : List Char :=
  match (l.splitOn '@').getLast? with
  | some h => h
  | none => l

structure GoURL where
  scheme : String
  host : String
deriving Repr, DecidableEq

/-- Modelled subset of Go `url.Parse`, producing the scheme and host.
The authority runs from after `//` to the first `/`, `?` or `#`. -/
def urlParse (raw : String) : Option GoURL :=
  match getScheme raw with
  | none => none
  | some (sch, rest) =>
    let scheme := sToLower sch
    match rest.toList with
    | '/' :: '/' :: tail =>
      let auth := tail.takeWhile (fun c => ¬ (c = '/' ∨ c = '?' ∨ c = '#'))
      let host := afterLastAt auth
      if host.any badHostChar then none
      else some { scheme := scheme, host := String.mk host }
    | _ => some { scheme := scheme, host := "" }

/-- Go `processor.DetectContentType` (internal/processor, content-type
detection file), translated clause by clause. -/
def DetectContentType (rawURL : String) : ContentType :=
  match urlParse rawURL with
  | none => ContentTypeUnknown
  | some u =>
    let host := sToLower u.host
    if strContains host "youtube.com" ∨ strContains host "youtu.be" then
      ContentTypeYouTube
    else if u.scheme = "http" ∨ u.scheme = "https" then
      ContentTypeText
    else
      ContentTypeUnknown

/-! ## Input-file parsing (internal/models/job.go, watcher part)

`parseInputFile` reads a file line by line with `bufio.Scanner`; the pure
model receives the file content and reproduces the scanner's line split.
-/

/-- `bufio.Scanner` with `ScanLines`: split on `\n`, no trailing empty
line for a trailing newline, strip a trailing `\r` from each line. -/
def fileLines (s : String) : List String :=
  if s = "" then []
  else
    let parts := s.toList.splitOn '\n'
    let parts := if parts.getLast? = some [] then parts.dropLast else parts
    parts.map (fun l => String.mk (if l.getLast? = some '\r' then l.dropLast else l))

/-- Go `watcher.inputFile`: the two yaml-tagged fields (`url`, `prompt`).
There is no `text` field in the source. -/
structure inputFile where
  url : String
  prompt : String
deriving Repr, DecidableEq

/-- Modelled subset of `yaml.Unmarshal` into `inputFile`: a flat mapping
of `key: value` scalar lines.  Blank lines are skipped, unknown keys are
ignored (as yaml.Unmarshal does), a non-blank line without `:` is a parse
error (`none`).  Block scalars and nested structures are outside the
modelled subset. -/
def yamlFlat (s : String) : Option inputFile :=
  go ((s.toList.splitOn '\n').map String.mk) { url := "", prompt := "" }
where
  go : List String → inputFile → Option inputFile
  | [], acc => some acc
  | l :: rest, acc =>
    if sTrim l = "" then go rest acc
    else
      match splitN3 l ":" with
      | [_] => none
      | k :: vs =>
        let key := sTrim k
        let val := sTrim (sIntercalate ":" vs)
        if key = "url" then go rest { acc with url := val }
        else if key = "prompt" then go rest { acc with prompt := val }
        else go rest acc
      | [] => none

/-- Go `watcher.parseInputFile`, on the scanner's line list.  The Go
function returns an error only for file-I/O failures, which the pure
model has no counterpart for, so the result is total. -/
def parseInputFile (lines : List String) : String × String :=
  let content := sTrim (sIntercalate "\n" lines)
  let viaFront : Option (String × String) :=
    if sStartsWith content "---" then
      match splitN3 content "---" with
      | [_, front, _] =>
        match yamlFlat front with
        | some input =>
          if input.url ≠ "" then some (sTrim input.url, sTrim input.prompt) else none
        | none => none
      | _ => none
    else none
  match viaFront with
  | some r => r
  | none =>
    match lines with
    | l :: _ => (sTrim l, "")
    | [] => ("", "")

/-! ## JSON document model (encoding/json at the value level)

The queue document is `json.MarshalIndent(q.jobs, ...)`.  The model works
at the level of JSON values (`Jx`), abstracting the byte-level rendering:
`encodeJob` follows the struct tags of `models.Job` (field order,
`omitempty`), `decodeJob` follows `json.Unmarshal` (missing field keeps
the zero value, wrong JSON type is an error). -/

inductive Jx where
  | null
  | str (s : String)
  | num (n : Int)
  | arr (elems : List Jx)
  | obj (fields : List (String × Jx))

/-- One `models.Job` as a JSON object, following the json struct tags. -/
def encodeJob (j : Job) : Jx :=
  Jx.obj
    ([("id", Jx.str j.id), ("file_path", Jx.str j.filePath), ("url", Jx.str j.url)]
      ++ (if j.customPrompt = "" then [] else [("custom_prompt", Jx.str j.customPrompt)])
      ++ [("content_type", Jx.str j.contentType), ("status", Jx.str j.status)]
      ++ (if j.content = "" then [] else [("content", Jx.str j.content)])
      ++ (if j.summary = "" then [] else [("summary", Jx.str j.summary)])
      ++ (if j.error = "" then [] else [("error", Jx.str j.error)])
      ++ [("created_at", Jx.num j.createdAt), ("updated_at", Jx.num j.updatedAt),
          ("retries", Jx.num j.retries)])

def encodeJobs (jobs : List Job) : Jx :=
  Jx.arr (jobs.map encodeJob)

def lookupField (fs : List (String × Jx)) (k : String) : Option Jx :=
  ((fs.find? (fun e => e.1 = k)).map (fun e => e.2))

/-- A string field under `json.Unmarshal`: absent keeps the zero value. -/
def getStr (fs : List (String × Jx)) (k : String) : Option String :=
  match lookupField fs k with
  | none => some ""
  | some (Jx.str s) => some s
  | some _ => none

/-- A numeric field under `json.Unmarshal`: absent keeps the zero value. -/
def getNat (fs : List (String × Jx)) (k : String) : Option Nat :=
  match lookupField fs k with
  | none => some 0
  | some (Jx.num n) => some n.toNat
  | some _ => none

def decodeJob : Jx → Option Job
  | Jx.obj fs => do
    let id ← getStr fs "id"
    let filePath ← getStr fs "file_path"
    let url ← getStr fs "url"
    let customPrompt ← getStr fs "custom_prompt"
    let contentType ← getStr fs "content_type"
    let status ← getStr fs "status"
    let content ← getStr fs "content"
    let summary ← getStr fs "summary"
    let error ← getStr fs "error"
    let createdAt ← getNat fs "created_at"
    let updatedAt ← getNat fs "updated_at"
    let retries ← getNat fs "retries"
    some { id := id, filePath := filePath, url := url, customPrompt := customPrompt,
           contentType := contentType, status := status, content := content,
           summary := summary, error := error, createdAt := createdAt,
           updatedAt := updatedAt, retries := retries }
  | _ => none

def decodeJobList : List Jx → Option (List Job)
  | [] => some []
  | x :: xs =>
    match decodeJob x, decodeJobList xs with
    | some j, some js => some (j :: js)
    | _, _ => none

def decodeJobs : Jx → Option (List Job)
  | Jx.arr es => decodeJobList es
  | _ => none

/-! ## Durable queue (queue package)

The queue's on-disk document is `doc : Option Jx` (`none` = the file does
not exist).  Each mutating operation rewrites the document from the whole
job list; `writeErr` models an `os.WriteFile` failure, in which case the
in-memory list has already mutated but the document is left stale.  The
mutex is elided: every operation is a whole atomic step on the state. -/

structure QueueState where
  jobs : List Job
  doc : Option Jx

/-- Go `Queue.persist`: marshal the whole list, overwrite the document. -/
def persistDoc (jobs : List Job) : Jx := encodeJobs jobs

/-- Go `queue.New`: a missing document is an empty queue, a document that
fails to unmarshal is a construction error. -/
def queueNew (file : Option Jx) : Except String QueueState :=
  match file with
  | none => Except.ok { jobs := [], doc := none }
  | some d =>
    match decodeJobs d with
    | some js => Except.ok { jobs := js, doc := some d }
    | none => Except.error "failed to unmarshal queue document"

/-- Go `Queue.Enqueue`: append, persist; the persist error is returned to
the caller. -/
def queueEnqueue (writeErr : Option String) (q : QueueState) (job : Job) :
    QueueState × Option String :=
  let jobs := q.jobs ++ [job]
  match writeErr with
  | none => ({ jobs := jobs, doc := some (persistDoc jobs) }, none)
  | some e => ({ jobs := jobs, doc := q.doc }, some e)

/-- The scan inside Go `Queue.Dequeue`: first Pending record becomes
Processing in place. -/
def dequeueAux : List Job → Option (Job × List Job)
  | [] => none
  | j :: rest =>
    if j.status = JobStatusPending then
      some ({ j with status := JobStatusProcessing },
            { j with status := JobStatusProcessing } :: rest)
    else
      match dequeueAux rest with
      | none => none
      | some (r, rest') => some (r, j :: rest')

/-- Go `Queue.Dequeue`: note the Go code calls `q.persist()` and discards
its error; accordingly the returned value does not mention `writeErr`.
When no Pending record exists nothing is persisted. -/
def queueDequeue (writeErr : Option String) (q : QueueState) :
    Option Job × QueueState :=
  match dequeueAux q.jobs with
  | none => (none, q)
  | some (j, jobs) =>
    match writeErr with
    | none => (some j, { jobs := jobs, doc := some (persistDoc jobs) })
    | some _ => (some j, { jobs := jobs, doc := q.doc })

/-- The scan inside Go `Queue.Update`: replace the first record with a
matching ID. -/
def updateAux (job : Job) : List Job → Option (List Job)
  | [] => none
  | j :: rest =>
    if j.id = job.id then some (job :: rest)
    else (updateAux job rest).map (fun l => j :: l)

/-- Go `Queue.Update`: persist on a hit, no-op (and no error) on a miss;
the persist error is returned to the caller. -/
def queueUpdate (writeErr : Option String) (q : QueueState) (job : Job) :
    QueueState × Option String :=
  match updateAux job q.jobs with
  | none => (q, none)
  | some jobs =>
    match writeErr with
    | none => ({ jobs := jobs, doc := some (persistDoc jobs) }, none)
    | some e => ({ jobs := jobs, doc := q.doc }, some e)

/-- The scan inside Go `Queue.Remove`. -/
def removeAux (jobID : String) : List Job → Option (List Job)
  | [] => none
  | j :: rest =>
    if j.id = jobID then some rest
    else (removeAux jobID rest).map (fun l => j :: l)

/-- Go `Queue.Remove`: delete the first record with a matching ID. -/
def queueRemove (writeErr : Option String) (q : QueueState) (jobID : String) :
    QueueState × Option String :=
  match removeAux jobID q.jobs with
  | none => (q, none)
  | some jobs =>
    match writeErr with
    | none => ({ jobs := jobs, doc := some (persistDoc jobs) }, none)
    | some e => ({ jobs := jobs, doc := q.doc }, some e)

/-! ## Processor (internal/processor/processor.go)

`processJob` is embedded as a function of the job and an environment
bundling the external collaborators: filesystem snapshots (one for the
`os.Stat` duplicate check, one for the `O_EXCL` create, so the race the
source defends against is expressible), the two extractors, the
summarizer, and the notifier's presence.  The result records the mutated
job, which collaborators ran, the notifications sent, the queue operation
the processor performed, any scheduled retry backoff (in seconds), the
resulting filesystem and whether the source file was deleted. -/

def maxRetries : Nat := 3

/-- `baseBackoff = 5 * time.Second`, tracked in seconds. -/
def baseBackoffSec : Nat := 5

/-- The configuration fields `processJob` consumes. -/
structure Config where
  outputDir : String

inductive Notice where
  | started
  | skipped
  | success
  | failure
deriving Repr, DecidableEq

inductive QueueOp where
  | update
  | remove
deriving Repr, DecidableEq

structure PEnv where
  /-- `os.Stat` failure other than not-exists in `outputExists`. -/
  statErr : Option String
  /-- Filesystem as seen by the duplicate check (path to content). -/
  fsAtCheck : String → Option String
  /-- `YouTubeProcessor.Process`. -/
  extractYouTube : String → Except String String
  /-- `TextExtractor.Extract`. -/
  extractText : String → Except String String
  /-- `Summarizer.Summarize content customPrompt contentType`. -/
  summarize : String → String → ContentType → Except String String
  /-- Filesystem as seen by the `O_EXCL` create in `saveSummary`. -/
  fsAtSave : String → Option String
  /-- `os.OpenFile`/`MkdirAll`/`WriteString` failure other than
  already-exists. -/
  createErr : Option String
  /-- `p.notifier != nil`. -/
  notifierPresent : Bool
  /-- Clock tick stamped into `UpdatedAt`. -/
  now : Nat
  /-- Timestamp string rendered into the output template. -/
  nowStr : String

structure PResult where
  job : Job
  extractorCalled : Bool
  summarizerCalled : Bool
  notices : List Notice
  queueOp : QueueOp
  backoff : Option Nat
  fs : String → Option String
  sourceDeleted : Bool

/-- Go `Processor.getOutputPath`; `filepath.Join` is modelled for already
clean `outputDir`/`filename` arguments. -/
def filepathBase (p : String) : String :=
  if p = "" then "."
  else
    let cs := (p.toList.reverse.dropWhile (fun c => c = '/')).reverse
    if cs = [] then "/"
    else String.mk (cs.reverse.takeWhile (fun c => c ≠ '/')).reverse

/-- Go `filepath.Ext`: the suffix from the last dot in the last path
element. -/
def filepathExt (p : String) : String :=
  go p.toList.reverse []
where
  go : List Char → List Char → String
  | [], _ => ""
  | c :: rest, acc =>
    if c = '/' then ""
    else if c = '.' then String.mk ('.' :: acc)
    else go rest (c :: acc)

def getOutputPath (cfg : Config) (job : Job) : String :=
  let baseName :=
    if job.filePath ≠ "" then
      let b := filepathBase job.filePath
      trimSuffix b (filepathExt b)
    else job.id
  (if cfg.outputDir = "" then baseName ++ ".md"
   else cfg.outputDir ++ "/" ++ baseName ++ ".md")

/-- Go `Processor.shouldRetry`. -/
def shouldRetry (j : Job) : Bool := j.retries < maxRetries

/-- The record mutation inside Go `Processor.retryJob`. -/
def retryJobRecord (j : Job) (e : String) (now : Nat) : Job :=
  { j with retries := j.retries + 1, status := JobStatusPending,
           error := e, updatedAt := now }

/-- The record mutation inside Go `Processor.failJob`. -/
def failJobRecord (j : Job) (e : String) (now : Nat) : Job :=
  { j with status := JobStatusFailed, error := e, updatedAt := now }

/-- The record mutation inside Go `Processor.completeJob`. -/
def completeJobRecord (j : Job) (now : Nat) : Job :=
  { j with status := JobStatusCompleted, updatedAt := now }

/-- The output template written by Go `Processor.saveSummary`. -/
def summaryContent (j : Job) (nowStr : String) : String :=
  "# Summary\n\n**URL:** " ++ j.url ++ "\n**Type:** " ++ j.contentType ++
    "\n**Generated:** " ++ nowStr ++ "\n\n---\n\n" ++ j.summary

/-- Go `Processor.processJob`, branch for branch.  The final queue write
of each terminal helper (`retryJob`/`failJob` call `queue.Update`,
`completeJob` calls `queue.Remove`) is reported as `queueOp`; Go discards
the error those calls return. -/
def processJob (cfg : Config) (env : PEnv) (job0 : Job) : PResult :=
  let job := { job0 with contentType := DetectContentType job0.url }
  if job.contentType = ContentTypeUnknown then
    { job := failJobRecord job ("unknown content type for URL: " ++ job.url) env.now
      extractorCalled := false, summarizerCalled := false
      notices := if env.notifierPresent then [Notice.failure] else []
      queueOp := QueueOp.update, backoff := none
      fs := env.fsAtSave, sourceDeleted := false }
  else
    let path := getOutputPath cfg job
    match env.statErr with
    | some e =>
      { job := failJobRecord job ("failed to check output file: " ++ e) env.now
        extractorCalled := false, summarizerCalled := false
        notices := if env.notifierPresent then [Notice.failure] else []
        queueOp := QueueOp.update, backoff := none
        fs := env.fsAtSave, sourceDeleted := false }
    | none =>
      if (env.fsAtCheck path).isSome then
        { job := completeJobRecord job env.now
          extractorCalled := false, summarizerCalled := false
          notices := if env.notifierPresent then [Notice.skipped] else []
          queueOp := QueueOp.remove, backoff := none
          fs := env.fsAtSave, sourceDeleted := job.filePath ≠ "" }
      else
        let startNotices :=
          if env.notifierPresent ∧ job.retries = 0 then [Notice.started] else []
        let extracted : Except String String :=
          if job.contentType = ContentTypeYouTube then env.extractYouTube job.url
          else if job.contentType = ContentTypeText then env.extractText job.url
          else Except.ok ""
        match extracted with
        | Except.error e =>
          if shouldRetry job then
            { job := retryJobRecord job e env.now
              extractorCalled := true, summarizerCalled := false
              notices := startNotices
              queueOp := QueueOp.update
              backoff := some ((job.retries + 1) * baseBackoffSec)
              fs := env.fsAtSave, sourceDeleted := false }
          else
            { job := failJobRecord job e env.now
              extractorCalled := true, summarizerCalled := false
              notices := startNotices ++ (if env.notifierPresent then [Notice.failure] else [])
              queueOp := QueueOp.update, backoff := none
              fs := env.fsAtSave, sourceDeleted := false }
        | Except.ok content =>
          let job1 := { job with content := content }
          match env.summarize content job1.customPrompt job1.contentType with
          | Except.error e =>
            if shouldRetry job1 then
              { job := retryJobRecord job1 e env.now
                extractorCalled := true, summarizerCalled := true
                notices := startNotices
                queueOp := QueueOp.update
                backoff := some ((job1.retries + 1) * baseBackoffSec)
                fs := env.fsAtSave, sourceDeleted := false }
            else
              { job := failJobRecord job1 e env.now
                extractorCalled := true, summarizerCalled := true
                notices := startNotices ++ (if env.notifierPresent then [Notice.failure] else [])
                queueOp := QueueOp.update, backoff := none
                fs := env.fsAtSave, sourceDeleted := false }
          | Except.ok summary =>
            let job2 := { job1 with summary := summary }
            if (env.fsAtSave path).isSome then
              { job := completeJobRecord job2 env.now
                extractorCalled := true, summarizerCalled := true
                notices := startNotices ++ (if env.notifierPresent then [Notice.skipped] else [])
                queueOp := QueueOp.remove, backoff := none
                fs := env.fsAtSave, sourceDeleted := job2.filePath ≠ "" }
            else
              match env.createErr with
              | some e =>
                { job := failJobRecord { job2 with error := "failed to save summary: " ++ e }
                           ("failed to save summary: " ++ e) env.now
                  extractorCalled := true, summarizerCalled := true
                  notices := startNotices ++ (if env.notifierPresent then [Notice.failure] else [])
                  queueOp := QueueOp.update, backoff := none
                  fs := env.fsAtSave, sourceDeleted := false }
              | none =>
                { job := completeJobRecord job2 env.now
                  extractorCalled := true, summarizerCalled := true
                  notices := startNotices ++ (if env.notifierPresent then [Notice.success] else [])
                  queueOp := QueueOp.remove, backoff := none
                  fs := fun p => if p = path then some (summaryContent job2 env.nowStr)
                                 else env.fsAtSave p
                  sourceDeleted := job2.filePath ≠ "" }

/-- One dequeue-process cycle repeated while the job keeps returning to
Pending (the retry timer merely re-wakes the drain loop, after which
`Dequeue` flips the record back to Processing); the trace records every
attempt's `PResult`. -/
def runTrace (cfg : Config) (env : PEnv) : Job → Nat → List PResult
  | _, 0 => []
  | job, fuel + 1 =>
    let r := processJob cfg env { job with status := JobStatusProcessing }
    r :: (if r.job.status = JobStatusPending then runTrace cfg env r.job fuel else [])

/-! ## Watcher ingestion and debounce (internal/models/job.go, watcher)

`processFile` parses a file and enqueues the resulting job; in the Go
code this happens for every file the debounce loop dispatches, and
`parseInputFile` only fails on I/O errors, so in the pure model a job is
always produced. -/

/-- Go `Watcher.processFile` followed by `Queue.Enqueue` (ID and clock
abstracted into parameters). -/
def processFile (q : QueueState) (path content id : String) (now : Nat) :
    QueueState :=
  let (url, customPrompt) := parseInputFile (fileLines content)
  (queueEnqueue none q (NewJob id now path url customPrompt)).1

/-- `debounceTime = 500 * time.Millisecond`, tracked in milliseconds. -/
def debounceMs : Nat := 500

/-- Replace-or-append into the pending map (Go `w.pending[path] = ...`).
The map is association-list shaped; keys stay unique. -/
def setDeadline : List (String × Nat) → String → Nat → List (String × Nat)
  | [], q, d => [(q, d)]
  | (r, e) :: rest, q, d =>
    if r = q then (q, d) :: rest else (r, e) :: setDeadline rest q d

def lookupDeadline (m : List (String × Nat)) (p : String) : Option Nat :=
  ((m.find? (fun e => e.1 = p)).map (fun e => e.2))

/-- Go `Watcher.scheduleProcess` at event time `now`. -/
def scheduleProcess (m : List (String × Nat)) (path : String) (now : Nat) :
    List (String × Nat) :=
  setDeadline m path (now + debounceMs)

/-- One tick of Go `Watcher.debounceLoop`: entries whose deadline has
strictly elapsed (`now.After(deadline)`) are removed and dispatched. -/
def tickStep (now : Nat) (m : List (String × Nat)) :
    List (String × Nat) × List String :=
  (m.filter (fun e => ¬ e.2 < now), (m.filter (fun e => e.2 < now)).map (fun e => e.1))

/-- A timed action seen by the watcher: a create/write event on a path
(already filtered for eligibility by `isValidFile`) or a debounce tick. -/
inductive WAct where
  | ev (path : String)
  | tick
deriving Repr, DecidableEq

/-- Run the watcher over a time-ordered action trace; the second
component collects `(time, path)` for every dispatched parse-and-enqueue
(the Go loop calls `processFile` once per dispatched path). -/
def runWatcher (m : List (String × Nat)) :
    List (Nat × WAct) → List (String × Nat) × List (Nat × String)
  | [] => (m, [])
  | (t, WAct.ev p) :: rest => runWatcher (scheduleProcess m p t) rest
  | (t, WAct.tick) :: rest =>
    let s := tickStep t m
    let r := runWatcher s.1 rest
    (r.1, s.2.map (fun p => (t, p)) ++ r.2)

/-- The event times in a watcher trace (the create/write events, in trace
order). -/
def evTimes (txs : List (Nat × WAct)) : List Nat :=
  txs.filterMap (fun x => match x.2 with | WAct.ev _ => some x.1 | WAct.tick => none)

/-! ## SanitizeFilename (internal/processor/sanitize.go)

The three regular expressions of the source are simple character-class
operations and are embedded as such.  `unicode.IsPrint` is modelled on
its ASCII/Latin-1 restriction (printable iff not a C0/C1 control
character and not DEL); the modelled claims are insensitive to the exact
printability of higher code points because unprintable runes are mapped
to `_` like invalid ones.  Go's byte-level `result[:200]` truncation is
modelled as the longest rune prefix of at most 200 bytes. -/

/-- The character class of `invalidCharsRegexp`. -/
def invalidChars : List Char := ['<', '>', ':', '"', '/', '\\', '|', '?', '*']

/-- The character class of `controlCharsRegexp` (`[\x00-\x1f]`). -/
def isCtl (c : Char) : Bool := c.toNat ≤ 0x1f

/-- Modelled `unicode.IsPrint` (see section comment). -/
def isPrintModel (c : Char) : Bool :=
  0x20 ≤ c.toNat ∧ ¬ (0x7f ≤ c.toNat ∧ c.toNat ≤ 0x9f)

/-- `unicode.ReplacementChar`. -/
def replacementChar : Char := Char.ofNat 0xfffd

/-- `multipleUnderscoresRegexp.ReplaceAllString r "_"`: collapse every
run of underscores to a single one. -/
def collapseU : List Char → List Char
  | [] => []
  | [c] => [c]
  | a :: b :: rest =>
    if a = '_' ∧ b = '_' then collapseU (b :: rest)
    else a :: collapseU (b :: rest)

/-- Go `strings.Trim` with a cutset, on char lists. -/
def trimSet (cut : List Char) (l : List Char) : List Char :=
  ((l.dropWhile (fun c => c ∈ cut)).reverse.dropWhile (fun c => c ∈ cut)).reverse

/-- Go `strings.TrimRight` with a cutset, on char lists. -/
def trimRightSet (cut : List Char) (l : List Char) : List Char :=
  (l.reverse.dropWhile (fun c => c ∈ cut)).reverse

/-- Longest rune prefix of at most `budget` UTF-8 bytes. -/
def takeBytes : Nat → List Char → List Char
  | _, [] => []
  | budget, c :: rest =>
    if c.utf8Size ≤ budget then c :: takeBytes (budget - c.utf8Size) rest else []

def utf8Len (l : List Char) : Nat := (l.map Char.utf8Size).sum

/-- The stages of Go `processor.SanitizeFilename` before the length
check: control-character removal, invalid-character replacement,
unprintable-rune replacement, underscore collapsing, and the trim of
leading/trailing spaces, dots and underscores. -/
def sanitizePre (filename : String) : List Char :=
  let r1 := filename.toList.filter (fun c => ¬ isCtl c)
  let r2 := r1.map (fun c => if c ∈ invalidChars then '_' else c)
  let r3 := r2.map (fun c => if isPrintModel c ∧ c ≠ replacementChar then c else '_')
  let r4 := collapseU r3
  trimSet [' ', '.', '_'] r4

/-- Go `processor.SanitizeFilename`, stage for stage. -/
def SanitizeFilename (filename : String) : String :=
  if filename = "" then "unnamed"
  else
    let r5 := sanitizePre filename
    if r5 = [] then "unnamed"
    else if 200 < utf8Len r5 then String.mk (trimRightSet ['_'] (takeBytes 200 r5))
    else String.mk r5

/-! # Theorems -/

/-- Claim C6: a URL whose parsed host contains a video-hosting domain
classifies as YouTube; every other http(s) URL classifies as Text; any
other input (including unparsable ones) classifies as Unknown, and a job
resolved to Unknown is failed permanently without any retry (no backoff
scheduled, retry counter untouched, record updated in place rather than
removed); the spec's four example URLs classify as stated. -/
theorem content_type_classification :
    (∀ s u, urlParse s = some u →
      (strContains (sToLower u.host) "youtube.com" = true ∨
       strContains (sToLower u.host) "youtu.be" = true) →
      DetectContentType s = ContentTypeYouTube) ∧
    (∀ s u, urlParse s = some u →
      ¬ (strContains (sToLower u.host) "youtube.com" = true ∨
         strContains (sToLower u.host) "youtu.be" = true) →
      (u.scheme = "http" ∨ u.scheme = "https") →
      DetectContentType s = ContentTypeText) ∧
    (∀ s u, urlParse s = some u →
      ¬ (strContains (sToLower u.host) "youtube.com" = true ∨
         strContains (sToLower u.host) "youtu.be" = true) →
      ¬ (u.scheme = "http" ∨ u.scheme = "https") →
      DetectContentType s = ContentTypeUnknown) ∧
    (∀ s, urlParse s = none → DetectContentType s = ContentTypeUnknown) ∧
    DetectContentType "https://youtu.be/xyz" = ContentTypeYouTube ∧
    DetectContentType "https://www.youtube.com/watch?v=xyz" = ContentTypeYouTube ∧
    DetectContentType "https://example.com/a" = ContentTypeText ∧
    DetectContentType "ftp://example.com" = ContentTypeUnknown ∧
    (∀ cfg env job, DetectContentType job.url = ContentTypeUnknown →
      (processJob cfg env job).job.status = JobStatusFailed ∧
      (processJob cfg env job).backoff = none ∧
      (processJob cfg env job).job.retries = job.retries ∧
      (processJob cfg env job).queueOp = QueueOp.update ∧
      (processJob cfg env job).extractorCalled = false ∧
      (processJob cfg env job).summarizerCalled = false) := by
  refine ⟨?_, ?_, ?_, ?_, ?_, ?_, ?_, ?_, ?_⟩
  · intro s u hp hy
    simp only [DetectContentType, hp]
    simp [hy]
  · intro s u hp hy hs
    simp only [DetectContentType, hp]
    rw [if_neg hy, if_pos hs]
  · intro s u hp hy hs
    simp only [DetectContentType, hp]
    rw [if_neg hy, if_neg hs]
  · intro s hp
    simp [DetectContentType, hp]
  · rfl
  · rfl
  · rfl
  · rfl
  · intro cfg env job h
    simp [processJob, h, failJobRecord]

/-- Witness for `content_type_classification` at concrete inputs. -/
theorem content_type_classification_w :
    DetectContentType "https://youtu.be/xyz" = ContentTypeYouTube ∧
    DetectContentType "ftp://example.com" = ContentTypeUnknown ∧
    (processJob { outputDir := "/out" }
      { statErr := none, fsAtCheck := fun _ => none
        extractYouTube := fun _ => Except.ok "t", extractText := fun _ => Except.ok "t"
        summarize := fun _ _ _ => Except.ok "s", fsAtSave := fun _ => none
        createErr := none, notifierPresent := true, now := 0, nowStr := "T" }
      (NewJob "j1" 0 "/in/a.txt" "ftp://example.com" "")).job.status
      = JobStatusFailed := by
  refine ⟨content_type_classification.2.2.2.2.1, content_type_classification.2.2.2.2.2.2.2.1, ?_⟩
  exact (content_type_classification.2.2.2.2.2.2.2.2 _ _ _ (by rfl)).1

/-- Claim C1 is false on the code, on three counts shown at concrete
inputs: (i) front matter with both `url` and `text` populated parses to
URL mode with a nonempty URL (the source's `inputFile` has no text field
and no direct-text mode exists); (ii) content with neither a front-matter
URL nor a first-line URL does not become a literal-text payload — the
first line is returned as the URL with no http(s) prefix check; (iii) an
empty file still produces a Job Record (with empty URL) that is enqueued. -/
theorem parsing_precedence_cex :
    parseInputFile (fileLines "---\nurl: https://example.com/a\ntext: hello world\n---")
      = ("https://example.com/a", "") ∧
    parseInputFile (fileLines "just some text\nmore") = ("just some text", "") ∧
    parseInputFile (fileLines "---\nprompt: p\n---") = ("---", "") ∧
    (processFile { jobs := [], doc := none } "/in/a.briefly" "" "id1" 5).jobs
      = [NewJob "id1" 5 "/in/a.briefly" "" ""] := by
  refine ⟨rfl, rfl, rfl, rfl⟩

/-- Claim C1 amended to the source behaviour: if the trimmed content has
a front-matter block whose yaml yields a nonempty `url` field, the job is
URL mode with that url and prompt (a `text` field is not recognised and
there is no direct-text mode); otherwise, whenever the scanner produced
at least one line, the trimmed first line unconditionally becomes the URL
(no http(s) prefix check and never a literal-text payload); only a file
with no lines parses to an empty URL, and even then a Job Record is
created and enqueued with empty URL and prompt. -/
theorem parsing_precedence_amended :
    (∀ (lines : List String) (pre front post : String) (input : inputFile),
      sStartsWith (sTrim (sIntercalate "\n" lines)) "---" = true →
      splitN3 (sTrim (sIntercalate "\n" lines)) "---" = [pre, front, post] →
      yamlFlat front = some input →
      input.url ≠ "" →
      parseInputFile lines = (sTrim input.url, sTrim input.prompt)) ∧
    (∀ (l : String) (rest : List String),
      sStartsWith (sTrim (sIntercalate "\n" (l :: rest))) "---" = false →
      parseInputFile (l :: rest) = (sTrim l, "")) ∧
    parseInputFile [] = ("", "") ∧
    (∀ (q : QueueState) (path id : String) (now : Nat),
      (processFile q path "" id now).jobs = q.jobs ++ [NewJob id now path "" ""]) := by
  refine ⟨?_, ?_, rfl, ?_⟩
  · intro lines pre front post input hpre hsplit hyaml hurl
    simp only [parseInputFile, hpre, hsplit, hyaml, if_pos hpre]
    simp [hurl]
  · intro l rest hpre
    simp [parseInputFile, hpre]
  · intro q path id now
    rfl

/-- Witness for `parsing_precedence_amended` at concrete inputs. -/
theorem parsing_precedence_amended_w :
    parseInputFile (fileLines "---\nurl: https://youtu.be/x\nprompt: short\n---")
      = ("https://youtu.be/x", "short") ∧
    parseInputFile (fileLines "https://example.com/a\n") = ("https://example.com/a", "") := by
  constructor
  · exact parsing_precedence_amended.1
      (fileLines "---\nurl: https://youtu.be/x\nprompt: short\n---")
      "" "\nurl: https://youtu.be/x\nprompt: short\n" ""
      { url := "https://youtu.be/x", prompt := "short" }
      (by rfl) (by rfl) (by rfl) (by decide)
  · exact parsing_precedence_amended.2.1 "https://example.com/a" [] (by rfl)

/-- The output path ignores the content-type (and status/retry) fields. -/
theorem getOutputPath_contentType (cfg : Config) (job : Job) (x : ContentType) :
    getOutputPath cfg { job with contentType := x } = getOutputPath cfg job := rfl

/-- Claim C3 is false as stated: a job whose output file already exists
is nevertheless Failed — not Completed, and with no skipped notification
— when its URL classifies as Unknown, because `processJob` checks the
content type before the duplicate check.  Concrete input: a job for
`ftp://example.com` whose output `/out/a.md` exists. -/
theorem idempotent_output_cex :
    (processJob { outputDir := "/out" }
      { statErr := none
        fsAtCheck := fun p => if p = "/out/a.md" then some "old" else none
        extractYouTube := fun _ => Except.ok "t", extractText := fun _ => Except.ok "t"
        summarize := fun _ _ _ => Except.ok "s"
        fsAtSave := fun p => if p = "/out/a.md" then some "old" else none
        createErr := none, notifierPresent := true, now := 7, nowStr := "T" }
      (NewJob "j1" 0 "/in/a.txt" "ftp://example.com" "")).job.status = JobStatusFailed ∧
    (processJob { outputDir := "/out" }
      { statErr := none
        fsAtCheck := fun p => if p = "/out/a.md" then some "old" else none
        extractYouTube := fun _ => Except.ok "t", extractText := fun _ => Except.ok "t"
        summarize := fun _ _ _ => Except.ok "s"
        fsAtSave := fun p => if p = "/out/a.md" then some "old" else none
        createErr := none, notifierPresent := true, now := 7, nowStr := "T" }
      (NewJob "j1" 0 "/in/a.txt" "ftp://example.com" "")).notices = [Notice.failure] := by
  exact ⟨rfl, rfl⟩

/-- Claim C3 amended: *provided the job's URL resolves to a known content
type and the existence check itself does not error*, a job whose
deterministic output path already names an existing file is completed
without invoking the extractor or summarizer: skipped notification,
Completed status, removal from the queue, source-file deletion exactly
when a source file exists, and the filesystem (in particular the existing
output file) is left untouched.  The output path is
output-directory / basename-without-extension (job ID if no source file)
plus `.md`. -/
theorem idempotent_output_amended (cfg : Config) (env : PEnv) (job : Job) (c : String)
    (hdet : DetectContentType job.url ≠ ContentTypeUnknown)
    (hstat : env.statErr = none)
    (hfs : env.fsAtCheck (getOutputPath cfg job) = some c)
    (hn : env.notifierPresent = true) :
    (processJob cfg env job).extractorCalled = false ∧
    (processJob cfg env job).summarizerCalled = false ∧
    (processJob cfg env job).notices = [Notice.skipped] ∧
    (processJob cfg env job).job.status = JobStatusCompleted ∧
    (processJob cfg env job).queueOp = QueueOp.remove ∧
    ((processJob cfg env job).sourceDeleted = true ↔ job.filePath ≠ "") ∧
    (processJob cfg env job).fs = env.fsAtSave ∧
    (cfg.outputDir ≠ "" → getOutputPath cfg job =
      cfg.outputDir ++ "/" ++
        (if job.filePath ≠ "" then
          trimSuffix (filepathBase job.filePath) (filepathExt (filepathBase job.filePath))
         else job.id) ++ ".md") := by
  have hpath : getOutputPath cfg { job with contentType := DetectContentType job.url }
      = getOutputPath cfg job := rfl
  simp only [processJob, hpath, hstat, hfs, hn, if_neg hdet, completeJobRecord]
  refine ⟨by simp, by simp, by simp, by simp, by simp, by simp, by simp, ?_⟩
  intro hod
  simp only [getOutputPath]
  rw [if_neg hod]

/-- Witness for `idempotent_output_amended` at a concrete input. -/
theorem idempotent_output_amended_w :
    (processJob { outputDir := "/out" }
      { statErr := none
        fsAtCheck := fun p => if p = "/out/a.md" then some "old" else none
        extractYouTube := fun _ => Except.ok "t", extractText := fun _ => Except.ok "t"
        summarize := fun _ _ _ => Except.ok "s"
        fsAtSave := fun p => if p = "/out/a.md" then some "old" else none
        createErr := none, notifierPresent := true, now := 7, nowStr := "T" }
      (NewJob "j1" 0 "/in/a.txt" "https://example.com/a" "")).job.status
      = JobStatusCompleted := by
  exact (idempotent_output_amended _ _ _ "old" (by decide) rfl (by rfl) rfl).2.2.2.1

/-- Claim C7: for a job reaching the write step (known Text content type,
no duplicate at check time, extraction and summarization succeed), an
already-existing file at the output path at create time makes the
`O_EXCL` write fail and is treated exactly as the duplicate-skip path:
skipped notification, Completed, removal from the queue, no failure
notification, and the existing file's content is untouched.  A creation
failure for any other reason is instead a job failure (Failed status,
error recorded, record updated in place, no skip). -/
theorem create_exclusive (cfg : Config) (env : PEnv) (job : Job) (content summary : String)
    (hdet : DetectContentType job.url = ContentTypeText)
    (hstat : env.statErr = none)
    (hchk : env.fsAtCheck (getOutputPath cfg job) = none)
    (hext : env.extractText job.url = Except.ok content)
    (hsum : env.summarize content job.customPrompt ContentTypeText = Except.ok summary)
    (hn : env.notifierPresent = true) :
    (∀ c0, env.fsAtSave (getOutputPath cfg job) = some c0 →
      (processJob cfg env job).job.status = JobStatusCompleted ∧
      (processJob cfg env job).queueOp = QueueOp.remove ∧
      Notice.skipped ∈ (processJob cfg env job).notices ∧
      Notice.failure ∉ (processJob cfg env job).notices ∧
      (processJob cfg env job).fs (getOutputPath cfg job) = some c0) ∧
    (env.fsAtSave (getOutputPath cfg job) = none →
      ∀ e, env.createErr = some e →
      (processJob cfg env job).job.status = JobStatusFailed ∧
      (processJob cfg env job).job.error = "failed to save summary: " ++ e ∧
      (processJob cfg env job).queueOp = QueueOp.update ∧
      (processJob cfg env job).backoff = none ∧
      Notice.skipped ∉ (processJob cfg env job).notices) := by
  have hpath2 : getOutputPath cfg { job with contentType := ContentTypeText }
      = getOutputPath cfg job := rfl
  have e1 : ¬ (ContentTypeText = ContentTypeUnknown) := by decide
  have e2 : ¬ (ContentTypeText = ContentTypeYouTube) := by decide
  constructor
  · intro c0 hsave
    simp only [processJob, hdet, hstat, hpath2, hchk, if_neg e1, if_neg e2]
    simp [hext, hsum, hsave, hn, completeJobRecord]
  · intro hsave e hce
    simp only [processJob, hdet, hstat, hpath2, hchk, if_neg e1, if_neg e2]
    simp [hext, hsum, hsave, hce, hn, failJobRecord]

/-- Witness for `create_exclusive` at a concrete input (race case and
other-error case). -/
theorem create_exclusive_w :
    (processJob { outputDir := "/out" }
      { statErr := none, fsAtCheck := fun _ => none
        extractYouTube := fun _ => Except.ok "t", extractText := fun _ => Except.ok "body"
        summarize := fun _ _ _ => Except.ok "sum"
        fsAtSave := fun p => if p = "/out/a.md" then some "old" else none
        createErr := none, notifierPresent := true, now := 7, nowStr := "T" }
      (NewJob "j1" 0 "/in/a.txt" "https://example.com/a" "")).job.status
      = JobStatusCompleted ∧
    (processJob { outputDir := "/out" }
      { statErr := none, fsAtCheck := fun _ => none
        extractYouTube := fun _ => Except.ok "t", extractText := fun _ => Except.ok "body"
        summarize := fun _ _ _ => Except.ok "sum"
        fsAtSave := fun _ => none
        createErr := some "disk full", notifierPresent := true, now := 7, nowStr := "T" }
      (NewJob "j1" 0 "/in/a.txt" "https://example.com/a" "")).job.status
      = JobStatusFailed := by
  constructor
  · exact ((create_exclusive _ _ _ "body" "sum" (by rfl) rfl rfl rfl rfl rfl).1 "old"
      (by rfl)).1
  · exact ((create_exclusive _ _ _ "body" "sum" (by rfl) rfl rfl rfl rfl rfl).2 rfl
      "disk full" rfl).1

/-- One failing attempt with retries remaining: `retryJob` — counter up,
status back to Pending, error recorded, linear backoff scheduled,
record updated in place. -/
theorem processJob_text_extract_retry (cfg : Config) (env : PEnv) (job : Job) (e : String)
    (hdet : DetectContentType job.url = ContentTypeText)
    (hstat : env.statErr = none)
    (hchk : env.fsAtCheck (getOutputPath cfg job) = none)
    (hext : env.extractText job.url = Except.error e)
    (hlt : job.retries < maxRetries) :
    processJob cfg env job =
      { job :=
          { job with
            contentType := ContentTypeText, retries := job.retries + 1,
            status := JobStatusPending, error := e, updatedAt := env.now }
        extractorCalled := true, summarizerCalled := false
        notices := if env.notifierPresent ∧ job.retries = 0 then [Notice.started] else []
        queueOp := QueueOp.update
        backoff := some ((job.retries + 1) * baseBackoffSec)
        fs := env.fsAtSave, sourceDeleted := false } := by
  have hpath2 : getOutputPath cfg { job with contentType := ContentTypeText }
      = getOutputPath cfg job := rfl
  have e1 : ¬ (ContentTypeText = ContentTypeUnknown) := by decide
  have e2 : ¬ (ContentTypeText = ContentTypeYouTube) := by decide
  simp only [processJob, hdet, hstat, hpath2, hchk, if_neg e1, if_neg e2]
  simp [hext, shouldRetry, hlt, retryJobRecord]

/-- One failing attempt with retries exhausted: `failJob` — status Failed,
error recorded, failure notification, record updated in place (never
removed). -/
theorem processJob_text_extract_exhausted (cfg : Config) (env : PEnv) (job : Job) (e : String)
    (hdet : DetectContentType job.url = ContentTypeText)
    (hstat : env.statErr = none)
    (hchk : env.fsAtCheck (getOutputPath cfg job) = none)
    (hext : env.extractText job.url = Except.error e)
    (hge : ¬ job.retries < maxRetries) :
    processJob cfg env job =
      { job :=
          { job with
            contentType := ContentTypeText, status := JobStatusFailed,
            error := e, updatedAt := env.now }
        extractorCalled := true, summarizerCalled := false
        notices := (if env.notifierPresent ∧ job.retries = 0 then [Notice.started] else [])
          ++ (if env.notifierPresent then [Notice.failure] else [])
        queueOp := QueueOp.update, backoff := none
        fs := env.fsAtSave, sourceDeleted := false } := by
  have hpath2 : getOutputPath cfg { job with contentType := ContentTypeText }
      = getOutputPath cfg job := rfl
  have e1 : ¬ (ContentTypeText = ContentTypeUnknown) := by decide
  have e2 : ¬ (ContentTypeText = ContentTypeYouTube) := by decide
  simp only [processJob, hdet, hstat, hpath2, hchk, if_neg e1, if_neg e2]
  simp [hext, shouldRetry, hge, failJobRecord]

/-- `Queue.Update` replaces the matching record in place: the stored
record list keeps its length. -/
theorem updateAux_length (jf : Job) :
    ∀ (l l2 : List Job), updateAux jf l = some l2 → l2.length = l.length := by
  intro l
  induction l with
  | nil => intro l2 h; simp [updateAux] at h
  | cons j rest ih =>
    intro l2 h
    simp only [updateAux] at h
    by_cases hid : j.id = jf.id
    · rw [if_pos hid] at h
      cases h
      simp
    · rw [if_neg hid] at h
      cases hu : updateAux jf rest with
      | none => rw [hu] at h; simp at h
      | some l3 =>
        rw [hu] at h
        simp at h
        subst h
        simp [ih l3 hu]

/-- `Queue.Update` with a record whose ID occurs in the list stores that
record. -/
theorem updateAux_of_mem (jf : Job) :
    ∀ (l : List Job), jf.id ∈ l.map (fun x => x.id) →
      ∃ l2, updateAux jf l = some l2 ∧ jf ∈ l2 := by
  intro l
  induction l with
  | nil => intro h; simp at h
  | cons j rest ih =>
    intro h
    by_cases hid : j.id = jf.id
    · exact ⟨jf :: rest, by simp [updateAux, hid], by simp⟩
    · have : jf.id ∈ rest.map (fun x => x.id) := by
        simp only [List.map_cons, List.mem_cons] at h
        rcases h with h | h
        · exact absurd h.symm hid
        · exact h
      obtain ⟨l3, hu, hm⟩ := ih this
      exact ⟨j :: l3, by simp [updateAux, hid, hu], by simp [hm]⟩

/-- Claim C2: a fresh job (retry counter 0) whose extraction fails on
every attempt goes through exactly 3 retries — each retry incrementing
the counter, setting the status back to Pending and recording the error,
with scheduled backoff delays of 5, 10 and 15 seconds before the
respective re-attempts — and the 4th attempt sets status Failed with the
error recorded and no further backoff; every attempt ends in the
queue's update operation (never removal), and updating stores the failed
record in place, preserving the list length, so the Failed job remains
present in the queue. -/
theorem retry_exhaustion (cfg : Config) (env : PEnv) (job : Job) (e : String)
    (h0 : job.retries = 0)
    (hdet : DetectContentType job.url = ContentTypeText)
    (hstat : env.statErr = none)
    (hchk : ∀ p, env.fsAtCheck p = none)
    (hext : ∀ u, env.extractText u = Except.error e) :
    ((runTrace cfg env job 4).map (fun r => r.job.status)
      = [JobStatusPending, JobStatusPending, JobStatusPending, JobStatusFailed]) ∧
    ((runTrace cfg env job 4).map (fun r => r.job.retries) = [1, 2, 3, 3]) ∧
    ((runTrace cfg env job 4).map (fun r => r.backoff)
      = [some (1 * baseBackoffSec), some (2 * baseBackoffSec), some (3 * baseBackoffSec), none]) ∧
    ((runTrace cfg env job 4).map (fun r => r.backoff) = [some 5, some 10, some 15, none]) ∧
    ((runTrace cfg env job 4).map (fun r => r.job.error) = [e, e, e, e]) ∧
    ((runTrace cfg env job 4).map (fun r => r.queueOp)
      = [QueueOp.update, QueueOp.update, QueueOp.update, QueueOp.update]) ∧
    (∀ (w : Option String) (q : QueueState) (jf : Job),
      jf.id ∈ q.jobs.map (fun x => x.id) →
      jf ∈ (queueUpdate w q jf).1.jobs ∧
      (queueUpdate w q jf).1.jobs.length = q.jobs.length) := by
  refine ⟨?_, ?_, ?_, ?_, ?_, ?_, ?_⟩
  · obtain ⟨id, fp, url, cp, ct, st, co, su, er, ca, ua, r⟩ := job
    simp only at h0 hdet
    subst h0
    simp [runTrace, processJob_text_extract_retry, processJob_text_extract_exhausted,
      hdet, hstat, hchk, hext, maxRetries, JobStatusPending, JobStatusFailed]
  · obtain ⟨id, fp, url, cp, ct, st, co, su, er, ca, ua, r⟩ := job
    simp only at h0 hdet
    subst h0
    simp [runTrace, processJob_text_extract_retry, processJob_text_extract_exhausted,
      hdet, hstat, hchk, hext, maxRetries, JobStatusPending, JobStatusFailed]
  · obtain ⟨id, fp, url, cp, ct, st, co, su, er, ca, ua, r⟩ := job
    simp only at h0 hdet
    subst h0
    simp [runTrace, processJob_text_extract_retry, processJob_text_extract_exhausted,
      hdet, hstat, hchk, hext, maxRetries, baseBackoffSec, JobStatusPending, JobStatusFailed]
  · obtain ⟨id, fp, url, cp, ct, st, co, su, er, ca, ua, r⟩ := job
    simp only at h0 hdet
    subst h0
    simp [runTrace, processJob_text_extract_retry, processJob_text_extract_exhausted,
      hdet, hstat, hchk, hext, maxRetries, baseBackoffSec, JobStatusPending, JobStatusFailed]
  · obtain ⟨id, fp, url, cp, ct, st, co, su, er, ca, ua, r⟩ := job
    simp only at h0 hdet
    subst h0
    simp [runTrace, processJob_text_extract_retry, processJob_text_extract_exhausted,
      hdet, hstat, hchk, hext, maxRetries, JobStatusPending, JobStatusFailed]
  · obtain ⟨id, fp, url, cp, ct, st, co, su, er, ca, ua, r⟩ := job
    simp only at h0 hdet
    subst h0
    simp [runTrace, processJob_text_extract_retry, processJob_text_extract_exhausted,
      hdet, hstat, hchk, hext, maxRetries, JobStatusPending, JobStatusFailed]
  · intro w q jf hmem
    obtain ⟨l2, hu, hm⟩ := updateAux_of_mem jf q.jobs hmem
    have hlen := updateAux_length jf q.jobs l2 hu
    constructor
    · simp only [queueUpdate, hu]
      cases w <;> simpa using hm
    · simp only [queueUpdate, hu]
      cases w <;> simpa using hlen

/-- Witness for `retry_exhaustion` at a concrete job and environment. -/
theorem retry_exhaustion_w :
    ((runTrace { outputDir := "/out" }
      { statErr := none, fsAtCheck := fun _ => none
        extractYouTube := fun _ => Except.error "boom", extractText := fun _ => Except.error "boom"
        summarize := fun _ _ _ => Except.ok "s", fsAtSave := fun _ => none
        createErr := none, notifierPresent := true, now := 9, nowStr := "T" }
      (NewJob "j1" 0 "/in/a.txt" "https://example.com/a" "") 4).map (fun r => r.job.status)
      = [JobStatusPending, JobStatusPending, JobStatusPending, JobStatusFailed]) := by
  exact (retry_exhaustion _ _ _ "boom" rfl (by rfl) rfl (fun _ => rfl) (fun _ => rfl)).1

/-- The `Dequeue` scan returns nothing when no record is Pending. -/
theorem dequeueAux_eq_none :
    ∀ (l : List Job), (∀ j ∈ l, j.status ≠ JobStatusPending) → dequeueAux l = none := by
  intro l
  induction l with
  | nil => intro _; rfl
  | cons j rest ih =>
    intro h
    have hj : j.status ≠ JobStatusPending := h j (by simp)
    have hr : dequeueAux rest = none := ih (fun x hx => h x (by simp [hx]))
    simp [dequeueAux, hj, hr]

/-- The `Dequeue` scan finds the first Pending record (in insertion
order), flips exactly that record to Processing in place, and keeps every
other record where it was. -/
theorem dequeueAux_eq_some :
    ∀ (l : List Job) (i : Nat) (ji : Job),
      (∀ k jk, k < i → l[k]? = some jk → jk.status ≠ JobStatusPending) →
      l[i]? = some ji → ji.status = JobStatusPending →
      dequeueAux l = some ({ ji with status := JobStatusProcessing },
                           l.set i { ji with status := JobStatusProcessing }) := by
  intro l
  induction l with
  | nil => intro i ji _ hi; simp at hi
  | cons j rest ih =>
    intro i ji hlt hi hp
    cases i with
    | zero =>
      simp only [List.getElem?_cons_zero, Option.some_inj] at hi
      subst hi
      simp [dequeueAux, hp]
    | succ k =>
      have hj : j.status ≠ JobStatusPending := hlt 0 j (Nat.succ_pos k) (by simp)
      have hrest := ih k ji
        (fun k' jk hk' hk => hlt (k' + 1) jk (Nat.succ_lt_succ hk') (by simpa using hk))
        (by simpa using hi) hp
      simp [dequeueAux, hj, hrest]

/-- Claim C4: `Dequeue` scans the list in insertion order and returns the
first record whose status is Pending — transitioned to Processing in
place and persisted — or nothing when no Pending record exists; it never
removes a record (the length is preserved and every other record keeps
its position), so a job made Pending again by retry is revisited at its
original list position; `Update` (the retry path's write-back) likewise
preserves the ID sequence of the list. -/
theorem dequeue_first_pending (w : Option String) (q : QueueState) :
    ((∀ j ∈ q.jobs, j.status ≠ JobStatusPending) → queueDequeue w q = (none, q)) ∧
    (∀ (i : Nat) (ji : Job),
      (∀ k jk, k < i → q.jobs[k]? = some jk → jk.status ≠ JobStatusPending) →
      q.jobs[i]? = some ji → ji.status = JobStatusPending →
      (queueDequeue w q).1 = some { ji with status := JobStatusProcessing } ∧
      (queueDequeue w q).2.jobs = q.jobs.set i { ji with status := JobStatusProcessing } ∧
      (queueDequeue w q).2.jobs.length = q.jobs.length ∧
      (w = none → (queueDequeue w q).2.doc
        = some (persistDoc (q.jobs.set i { ji with status := JobStatusProcessing })))) ∧
    (∀ (jf : Job), ((queueUpdate w q jf).1.jobs.map (fun x => x.id))
      = q.jobs.map (fun x => x.id)) := by
  refine ⟨?_, ?_, ?_⟩
  · intro h
    simp [queueDequeue, dequeueAux_eq_none q.jobs h]
  · intro i ji hlt hi hp
    have hd := dequeueAux_eq_some q.jobs i ji hlt hi hp
    cases w <;> simp [queueDequeue, hd]
  · intro jf
    have hids : ∀ (l : List Job) (l2 : List Job), updateAux jf l = some l2 →
        l2.map (fun x => x.id) = l.map (fun x => x.id) := by
      intro l
      induction l with
      | nil => intro l2 h; simp [updateAux] at h
      | cons j rest ih =>
        intro l2 h
        simp only [updateAux] at h
        by_cases hid : j.id = jf.id
        · rw [if_pos hid] at h
          cases h
          simp [hid]
        · rw [if_neg hid] at h
          cases hu : updateAux jf rest with
          | none => rw [hu] at h; simp at h
          | some l3 =>
            rw [hu] at h
            simp at h
            subst h
            simp [ih l3 hu]
    cases hu : updateAux jf q.jobs with
    | none => simp [queueUpdate, hu]
    | some l2 => cases w <;> simp [queueUpdate, hu, hids q.jobs l2 hu]

/-- Witness for `dequeue_first_pending`: a two-record queue whose first
record is Completed has its second (first Pending) record dequeued. -/
theorem dequeue_first_pending_w :
    (queueDequeue none
      { jobs := [{ NewJob "a" 0 "/in/a.txt" "https://a" "" with status := JobStatusCompleted },
                 NewJob "b" 0 "/in/b.txt" "https://b" ""]
        doc := none }).1
      = some { NewJob "b" 0 "/in/b.txt" "https://b" "" with status := JobStatusProcessing } := by
  exact ((dequeue_first_pending none _).2.1 1 (NewJob "b" 0 "/in/b.txt" "https://b" "")
    (by intro k jk hk hjk
        interval_cases k
        · simp only [List.getElem?_cons_zero, Option.some_inj] at hjk
          subst hjk
          decide)
    (by simp) rfl).1

/-- One Job Record survives the marshal/unmarshal round trip with every
field intact (including the `omitempty` fields). -/
theorem decodeJob_encodeJob (j : Job) : decodeJob (encodeJob j) = some j := by
  obtain ⟨id, fp, url, cp, ct, st, co, su, er, ca, ua, r⟩ := j
  by_cases h1 : cp = "" <;> by_cases h2 : co = "" <;> by_cases h3 : su = "" <;>
    by_cases h4 : er = "" <;>
    simp [encodeJob, decodeJob, getStr, getNat, lookupField, h1, h2, h3, h4]

/-- A whole job list survives the round trip. -/
theorem decodeJobs_encodeJobs (jobs : List Job) :
    decodeJobs (encodeJobs jobs) = some jobs := by
  have : ∀ (l : List Job), decodeJobList (l.map encodeJob) = some l := by
    intro l
    induction l with
    | nil => rfl
    | cons j rest ih => simp [decodeJobList, decodeJob_encodeJob, ih]
  simpa [decodeJobs, encodeJobs] using this jobs

/-- Claim C5: enqueue a job and persist, construct a fresh queue from the
persisted document, and the whole list — in particular the new job with
identical field values and status — is recovered; a missing document
constructs an empty queue without error; a malformed document makes
construction fail. -/
theorem queue_durability_roundtrip :
    (∀ (q : QueueState) (j : Job),
      queueNew ((queueEnqueue none q j).1.doc)
        = Except.ok { jobs := q.jobs ++ [j], doc := some (persistDoc (q.jobs ++ [j])) } ∧
      j ∈ (q.jobs ++ [j])) ∧
    queueNew none = Except.ok { jobs := [], doc := none } ∧
    (∃ e, queueNew (some (Jx.str "this is not a job list")) = Except.error e) := by
  refine ⟨?_, rfl, ⟨"failed to unmarshal queue document", rfl⟩⟩
  intro q j
  refine ⟨?_, by simp⟩
  simp [queueEnqueue, queueNew, persistDoc, decodeJobs_encodeJobs]

/-- Claim C9 is false on the code at a concrete input: `Queue.Dequeue`
calls `q.persist()` and discards its error.  With one pending job and a
failing document write, Dequeue returns the job exactly as in the
successful-write run and mutates the in-memory list identically, while
the on-disk document silently stays stale (`none`); nothing surfaces the
failure as a job failure. -/
theorem persist_error_cex :
    (queueDequeue (some "disk full")
        { jobs := [NewJob "a" 0 "/in/a.txt" "https://a" ""], doc := none }).1
      = (queueDequeue none
        { jobs := [NewJob "a" 0 "/in/a.txt" "https://a" ""], doc := none }).1 ∧
    (queueDequeue (some "disk full")
        { jobs := [NewJob "a" 0 "/in/a.txt" "https://a" ""], doc := none }).2.jobs
      = (queueDequeue none
        { jobs := [NewJob "a" 0 "/in/a.txt" "https://a" ""], doc := none }).2.jobs ∧
    (queueDequeue (some "disk full")
        { jobs := [NewJob "a" 0 "/in/a.txt" "https://a" ""], doc := none }).2.doc
      = none ∧
    (queueDequeue (some "disk full")
        { jobs := [NewJob "a" 0 "/in/a.txt" "https://a" ""], doc := none }).1
      = some { NewJob "a" 0 "/in/a.txt" "https://a" "" with status := JobStatusProcessing } := by
  exact ⟨rfl, rfl, rfl, rfl⟩

/-- Claim C9 amended: a failure to create the output file for a reason
other than already-exists is surfaced as a job failure (Failed status,
error recorded, no retry), and `Enqueue` returns a failed document write
to its caller; but `Dequeue` discards a failed persist of the document —
its returned job and mutated in-memory list are identical whether or not
the write succeeds — so a document-persist failure during job processing
is silently dropped, not surfaced. -/
theorem persist_error_amended :
    (∀ (w : Option String) (q : QueueState),
      (queueDequeue w q).1 = (queueDequeue none q).1 ∧
      (queueDequeue w q).2.jobs = (queueDequeue none q).2.jobs) ∧
    (∀ (w : Option String) (q : QueueState) (j : Job), (queueEnqueue w q j).2 = w) ∧
    (∀ (cfg : Config) (env : PEnv) (job : Job) (content summary e : String),
      DetectContentType job.url = ContentTypeText →
      env.statErr = none →
      env.fsAtCheck (getOutputPath cfg job) = none →
      env.extractText job.url = Except.ok content →
      env.summarize content job.customPrompt ContentTypeText = Except.ok summary →
      env.fsAtSave (getOutputPath cfg job) = none →
      env.createErr = some e →
      (processJob cfg env job).job.status = JobStatusFailed ∧
      (processJob cfg env job).job.error = "failed to save summary: " ++ e ∧
      (processJob cfg env job).backoff = none) := by
  refine ⟨?_, ?_, ?_⟩
  · intro w q
    cases hd : dequeueAux q.jobs with
    | none => cases w <;> simp [queueDequeue, hd]
    | some p => cases w <;> simp [queueDequeue, hd]
  · intro w q j
    cases w <;> rfl
  · intro cfg env job content summary e hdet hstat hchk hext hsum hsave hce
    have hpath2 : getOutputPath cfg { job with contentType := ContentTypeText }
        = getOutputPath cfg job := rfl
    have e1 : ¬ (ContentTypeText = ContentTypeUnknown) := by decide
    have e2 : ¬ (ContentTypeText = ContentTypeYouTube) := by decide
    simp only [processJob, hdet, hstat, hpath2, hchk, if_neg e1, if_neg e2]
    simp [hext, hsum, hsave, hce, failJobRecord]

/-- Witness for `persist_error_amended` at concrete inputs. -/
theorem persist_error_amended_w :
    (queueEnqueue (some "disk full")
      { jobs := [], doc := none } (NewJob "a" 0 "/in/a.txt" "https://a" "")).2
      = some "disk full" ∧
    (processJob { outputDir := "/out" }
      { statErr := none, fsAtCheck := fun _ => none
        extractYouTube := fun _ => Except.ok "t", extractText := fun _ => Except.ok "body"
        summarize := fun _ _ _ => Except.ok "sum", fsAtSave := fun _ => none
        createErr := some "permission denied", notifierPresent := true, now := 7, nowStr := "T" }
      (NewJob "j1" 0 "/in/a.txt" "https://example.com/a" "")).job.status
      = JobStatusFailed := by
  constructor
  · exact persist_error_amended.2.1 (some "disk full") _ _
  · exact (persist_error_amended.2.2 _ _ _ "body" "sum" "permission denied"
      (by rfl) rfl rfl rfl rfl rfl rfl).1

/-- A tick-only trace from an empty pending map dispatches nothing. -/
theorem runWatcher_ticks_empty :
    ∀ (txs : List (Nat × WAct)), (∀ x ∈ txs, x.2 = WAct.tick) →
      runWatcher [] txs = ([], []) := by
  intro txs
  induction txs with
  | nil => intro _; rfl
  | cons x rest ih =>
    intro h
    obtain ⟨t, a⟩ := x
    have ha : a = WAct.tick := h (t, a) (by simp)
    subst ha
    simp [runWatcher, tickStep, ih (fun y hy => h y (by simp [hy]))]

/-- A tick-only trace against a single pending entry dispatches that path
exactly once, at the first tick strictly past its deadline, and leaves
the map empty. -/
theorem runWatcher_drain (p : String) :
    ∀ (txs : List (Nat × WAct)) (d : Nat),
      (∀ x ∈ txs, x.2 = WAct.tick) →
      (∃ t', (t', WAct.tick) ∈ txs ∧ d < t') →
      ∃ tstar, runWatcher [(p, d)] txs = ([], [(tstar, p)]) ∧ d < tstar := by
  intro txs
  induction txs with
  | nil =>
    intro d _ hex
    obtain ⟨t', hmem, _⟩ := hex
    simp at hmem
  | cons x rest ih =>
    intro d h hex
    obtain ⟨t, a⟩ := x
    have ha : a = WAct.tick := h (t, a) (by simp)
    subst ha
    by_cases hfire : d < t
    · refine ⟨t, ?_, hfire⟩
      have hrest : runWatcher [] rest = ([], []) :=
        runWatcher_ticks_empty rest (fun y hy => h y (by simp [hy]))
      simp [runWatcher, tickStep, hfire, hrest]
    · obtain ⟨t', hmem, hgt⟩ := hex
      have hne : t' ≠ t := by
        intro heq
        exact hfire (heq ▸ hgt)
      have hmem' : (t', WAct.tick) ∈ rest := by
        rcases List.mem_cons.1 hmem with heq | hm
        · exact absurd (congrArg Prod.fst heq) hne
        · exact hm
      obtain ⟨ts, heq, hlt⟩ := ih d (fun y hy => h y (by simp [hy])) ⟨t', hmem', hgt⟩
      refine ⟨ts, ?_, hlt⟩
      have hle : t ≤ d := Nat.not_lt.1 hfire
      simp [runWatcher, tickStep, hfire, hle, heq]

/-- A trace with no events is tick-only (given every action is a tick or
an event). -/
theorem evTimes_nil_ticks (p : String) (txs : List (Nat × WAct))
    (hacts : ∀ x ∈ txs, x.2 = WAct.tick ∨ x.2 = WAct.ev p)
    (h : evTimes txs = []) : ∀ x ∈ txs, x.2 = WAct.tick := by
  intro x hx
  rcases hacts x hx with ht | he
  · exact ht
  · exfalso
    have : x.1 ∈ evTimes txs := by
      refine List.mem_filterMap.2 ⟨x, hx, ?_⟩
      rw [he]
    rw [h] at this
    simp at this

/-- An event time in a trace belongs to an event action of the trace. -/
theorem evTimes_mem (txs : List (Nat × WAct)) (f : Nat)
    (h : f ∈ evTimes txs) : ∃ q, (f, WAct.ev q) ∈ txs := by
  obtain ⟨x, hx, hg⟩ := List.mem_filterMap.1 h
  obtain ⟨tx, ax⟩ := x
  cases ax with
  | ev q =>
    simp only at hg
    cases hg
    exact ⟨q, hx⟩
  | tick => simp at hg

/-- In a strictly increasing list the head is at most the last element. -/
theorem pairwise_head_le_getLast (f : Nat) (fs : List Nat)
    (h : List.Pairwise (fun a b => a < b) (f :: fs)) :
    f ≤ (f :: fs).getLast (by simp) := by
  have hmem := List.getLast_mem (l := f :: fs) (by simp)
  rcases List.mem_cons.1 hmem with heq | hm
  · exact Nat.le_of_eq heq.symm
  · exact Nat.le_of_lt ((List.pairwise_cons.1 h).1 _ hm)

/-- The burst lemma: as long as the pending map holds no entry for `p`
beyond a possible live deadline exceeding the time of the next event, a
strictly increasing trace of ticks and `p`-events whose events are
spaced under the debounce window, followed by some tick past the final
deadline, dispatches `p` exactly once, strictly after the last event's
deadline, and ends with an empty map. -/
theorem runWatcher_burst (p : String) :
    ∀ (txs : List (Nat × WAct)) (m : List (String × Nat)) (f : Nat) (fs : List Nat),
      (∀ x ∈ txs, x.2 = WAct.tick ∨ x.2 = WAct.ev p) →
      List.Pairwise (fun (a b : Nat × WAct) => a.1 < b.1) txs →
      evTimes txs = f :: fs →
      List.Pairwise (fun a b => a < b) (f :: fs) →
      List.Chain' (fun a b => b < a + debounceMs) (f :: fs) →
      (m = [] ∨ ∃ d, m = [(p, d)] ∧ f < d) →
      (∃ t', (t', WAct.tick) ∈ txs ∧ (f :: fs).getLast (by simp) + debounceMs < t') →
      ∃ tstar, runWatcher m txs = ([], [(tstar, p)]) ∧
        (f :: fs).getLast (by simp) + debounceMs < tstar := by
  intro txs
  induction txs with
  | nil =>
    intro m f fs _ _ hevs _ _ _ _
    simp [evTimes] at hevs
  | cons x rest ih =>
    intro m f fs hacts hsort hevs hinc hgap hentry htick
    obtain ⟨t, a⟩ := x
    cases a with
    | ev q =>
      have hq : p = q := by
        rcases hacts (t, WAct.ev q) (by simp) with h | h
        · cases h
        · cases h; rfl
      subst hq
      have hcons : t :: evTimes rest = f :: fs := by
        simpa [evTimes] using hevs
      have ht : t = f := (List.cons.inj hcons).1
      have hrest : evTimes rest = fs := (List.cons.inj hcons).2
      subst ht
      clear hcons hevs
      have hm' : scheduleProcess m p t = [(p, t + debounceMs)] := by
        rcases hentry with hm | ⟨d, hm, _⟩
        · rw [hm]; rfl
        · rw [hm]; simp [scheduleProcess, setDeadline]
      have htick' : ∃ t', (t', WAct.tick) ∈ rest ∧
          (t :: fs).getLast (by simp) + debounceMs < t' := by
        obtain ⟨t', hmem, hgt⟩ := htick
        refine ⟨t', ?_, hgt⟩
        rcases List.mem_cons.1 hmem with heq | hm
        · exact absurd (congrArg Prod.snd heq) (by simp)
        · exact hm
      cases fs with
      | nil =>
        have hticks : ∀ x ∈ rest, x.2 = WAct.tick :=
          evTimes_nil_ticks p rest
            (fun y hy => hacts y (by simp [hy])) hrest
        obtain ⟨t', hmem, hgt⟩ := htick'
        obtain ⟨ts, heq, hlt⟩ := runWatcher_drain p rest (t + debounceMs) hticks
          ⟨t', hmem, by simpa using hgt⟩
        refine ⟨ts, ?_, by simpa using hlt⟩
        simp only [runWatcher, hm']
        exact heq
      | cons f2 fs' =>
        have hgap' := (List.chain'_cons.1 hgap)
        have hlast : (t :: f2 :: fs').getLast (by simp)
            = (f2 :: fs').getLast (by simp) := List.getLast_cons (by simp)
        obtain ⟨ts, heq, hlt⟩ := ih [(p, t + debounceMs)] f2 fs'
          (fun y hy => hacts y (by simp [hy]))
          (List.pairwise_cons.1 hsort).2
          hrest
          (List.pairwise_cons.1 hinc).2
          hgap'.2
          (Or.inr ⟨t + debounceMs, rfl, hgap'.1⟩)
          (by rw [← hlast]; exact htick')
        refine ⟨ts, ?_, ?_⟩
        · simp only [runWatcher, hm']
          exact heq
        · rw [hlast]; exact hlt
    | tick =>
      have hrest : evTimes rest = f :: fs := by simpa [evTimes] using hevs
      have hf : t < f := by
        obtain ⟨q, hmem⟩ := evTimes_mem rest f (by rw [hrest]; simp)
        exact (List.pairwise_cons.1 hsort).1 (f, WAct.ev q) hmem
      have htick' : ∃ t', (t', WAct.tick) ∈ rest ∧
          (f :: fs).getLast (by simp) + debounceMs < t' := by
        obtain ⟨t', hmem, hgt⟩ := htick
        have hne : t' ≠ t := by
          intro heq
          subst heq
          have hfl := pairwise_head_le_getLast f fs hinc
          omega
        refine ⟨t', ?_, hgt⟩
        rcases List.mem_cons.1 hmem with heq | hm
        · exact absurd (congrArg Prod.fst heq) hne
        · exact hm
      rcases hentry with hm | ⟨d, hm, hd⟩
      · subst hm
        obtain ⟨ts, heq, hlt⟩ := ih [] f fs
          (fun y hy => hacts y (by simp [hy]))
          (List.pairwise_cons.1 hsort).2
          hrest hinc hgap (Or.inl rfl) htick'
        refine ⟨ts, ?_, hlt⟩
        simp [runWatcher, tickStep, heq]
      · subst hm
        have hnofire : ¬ d < t := by omega
        obtain ⟨ts, heq, hlt⟩ := ih [(p, d)] f fs
          (fun y hy => hacts y (by simp [hy]))
          (List.pairwise_cons.1 hsort).2
          hrest hinc hgap (Or.inr ⟨d, rfl, hd⟩) htick'
        refine ⟨ts, ?_, hlt⟩
        have hle : t ≤ d := Nat.not_lt.1 hnofire
        simp [runWatcher, tickStep, hnofire, hle, heq]

/-- The deadline written by `scheduleProcess` is event time plus the
debounce window, replacing any previous deadline for the path. -/
theorem lookup_scheduleProcess (p : String) (t : Nat) :
    ∀ (m : List (String × Nat)),
      lookupDeadline (scheduleProcess m p t) p = some (t + debounceMs) := by
  intro m
  induction m with
  | nil => simp [scheduleProcess, setDeadline, lookupDeadline]
  | cons e rest ih =>
    obtain ⟨r, d⟩ := e
    by_cases hr : r = p
    · subst hr
      simp [scheduleProcess, setDeadline, lookupDeadline]
    · simpa [scheduleProcess, setDeadline, hr, lookupDeadline]
        using ih

/-- Claim C8: starting from the watcher's empty pending map, a strictly
increasing trace of create/write events on one path — each event
resetting the path's deadline to its time plus the 500 ms window — with
consecutive events under 500 ms apart, interleaved with periodic scan
ticks of which some tick falls strictly after the last event's deadline,
produces exactly one parse-and-enqueue dispatch for that path, strictly
later than 500 ms after the last event, and removes the elapsed entry
(the pending map ends empty). -/
theorem debounce_coalescing (p : String) (txs : List (Nat × WAct)) (f : Nat) (fs : List Nat)
    (hacts : ∀ x ∈ txs, x.2 = WAct.tick ∨ x.2 = WAct.ev p)
    (hsort : List.Pairwise (fun (a b : Nat × WAct) => a.1 < b.1) txs)
    (hevs : evTimes txs = f :: fs)
    (hinc : List.Pairwise (fun a b => a < b) (f :: fs))
    (hgap : List.Chain' (fun a b => b < a + debounceMs) (f :: fs))
    (htick : ∃ t', (t', WAct.tick) ∈ txs ∧ (f :: fs).getLast (by simp) + debounceMs < t') :
    (∃ tstar, runWatcher [] txs = ([], [(tstar, p)]) ∧
      (f :: fs).getLast (by simp) + debounceMs < tstar) ∧
    (∀ (m : List (String × Nat)) (t : Nat),
      lookupDeadline (scheduleProcess m p t) p = some (t + debounceMs)) := by
  constructor
  · exact runWatcher_burst p txs [] f fs hacts hsort hevs hinc hgap (Or.inl rfl) htick
  · intro m t
    exact lookup_scheduleProcess p t m

/-- Witness for `debounce_coalescing`: two events at 0 ms and 300 ms with
ticks every 100 ms (shown through 900 ms, with 801 ms the first tick
strictly past the 800 ms deadline). -/
theorem debounce_coalescing_w :
    ∃ tstar,
      runWatcher []
        [(0, WAct.ev "a.briefly"), (100, WAct.tick), (200, WAct.tick),
         (300, WAct.ev "a.briefly"), (400, WAct.tick), (500, WAct.tick),
         (600, WAct.tick), (700, WAct.tick), (801, WAct.tick), (900, WAct.tick)]
        = ([], [(tstar, "a.briefly")]) ∧
      (0 :: [300]).getLast (by simp) + debounceMs < tstar := by
  exact (debounce_coalescing "a.briefly" _ 0 [300]
    (by decide) (by decide) (by decide) (by decide)
    (List.chain'_cons.2 ⟨by decide, List.chain'_singleton _⟩)
    ⟨801, by decide, by decide⟩).1

/-- Collapsing underscores only keeps characters of the input. -/
theorem collapseU_subset : ∀ (l : List Char), ∀ c ∈ collapseU l, c ∈ l := by
  intro l
  induction l with
  | nil => intro c hc; simp [collapseU] at hc
  | cons a rest ih =>
    intro c hc
    cases rest with
    | nil => simpa [collapseU] using hc
    | cons b rest2 =>
      simp only [collapseU] at hc
      by_cases hab : a = '_' ∧ b = '_'
      · rw [if_pos hab] at hc
        exact List.mem_cons.2 (Or.inr (ih c hc))
      · rw [if_neg hab] at hc
        rcases List.mem_cons.1 hc with h | h
        · exact List.mem_cons.2 (Or.inl h)
        · exact List.mem_cons.2 (Or.inr (ih c h))

/-- Collapsing preserves the head character. -/
theorem collapseU_head : ∀ (a : Char) (l : List Char),
    (collapseU (a :: l)).head? = some a := by
  intro a l
  induction l generalizing a with
  | nil => rfl
  | cons b rest ih =>
    simp only [collapseU]
    by_cases hab : a = '_' ∧ b = '_'
    · rw [if_pos hab, hab.1, ← hab.2]
      exact ih b
    · rw [if_neg hab]
      rfl

/-- After collapsing there is no run of two consecutive underscores. -/
theorem collapseU_chain : ∀ (l : List Char),
    List.Chain' (fun a b => ¬ (a = '_' ∧ b = '_')) (collapseU l) := by
  intro l
  induction l with
  | nil => simp [collapseU]
  | cons a rest ih =>
    cases rest with
    | nil => simp [collapseU]
    | cons b rest2 =>
      simp only [collapseU]
      by_cases hab : a = '_' ∧ b = '_'
      · rw [if_pos hab]
        simpa [collapseU] using ih
      · rw [if_neg hab]
        have hh := collapseU_head b rest2
        have ht : List.Chain' (fun a b => ¬ (a = '_' ∧ b = '_')) (collapseU (b :: rest2)) := by
          simpa [collapseU] using ih
        cases hc : collapseU (b :: rest2) with
        | nil => simp
        | cons x xs =>
          rw [hc] at hh ht
          simp only [List.head?_cons, Option.some_inj] at hh
          subst hh
          exact List.chain'_cons.2 ⟨hab, ht⟩

/-- `takeBytes` produces a prefix of its input. -/
theorem takeBytes_isPre : ∀ (n : Nat) (l : List Char), ∃ t, takeBytes n l ++ t = l := by
  intro n l
  induction l generalizing n with
  | nil => exact ⟨[], rfl⟩
  | cons c rest ih =>
    simp only [takeBytes]
    by_cases h : c.utf8Size ≤ n
    · rw [if_pos h]
      obtain ⟨t, ht⟩ := ih (n - c.utf8Size)
      exact ⟨t, by simp [ht]⟩
    · rw [if_neg h]
      exact ⟨c :: rest, rfl⟩

/-- `takeBytes` respects its byte budget. -/
theorem takeBytes_le : ∀ (n : Nat) (l : List Char), utf8Len (takeBytes n l) ≤ n := by
  intro n l
  induction l generalizing n with
  | nil => simp [takeBytes, utf8Len]
  | cons c rest ih =>
    simp only [takeBytes]
    by_cases h : c.utf8Size ≤ n
    · rw [if_pos h]
      have := ih (n - c.utf8Size)
      simp only [utf8Len, List.map_cons, List.sum_cons] at this ⊢
      omega
    · rw [if_neg h]
      simp [utf8Len]

/-- A nonempty prefix has the same head. -/
theorem head?_of_append (l t l2 : List Char) (h : l ++ t = l2) (hne : l ≠ []) :
    l2.head? = l.head? := by
  subst h
  cases l with
  | nil => exact absurd rfl hne
  | cons a rest => rfl

/-- The head surviving `dropWhile` fails the predicate. -/
theorem head?_dropWhile (p : Char → Bool) :
    ∀ (l : List Char) (c : Char), (l.dropWhile p).head? = some c → ¬ p c = true := by
  intro l
  induction l with
  | nil => intro c hc; simp at hc
  | cons a rest ih =>
    intro c hc
    by_cases hp : p a
    · rw [List.dropWhile_cons_of_pos hp] at hc
      exact ih c hc
    · rw [List.dropWhile_cons_of_neg hp] at hc
      simp only [List.head?_cons, Option.some_inj] at hc
      subst hc
      exact hp

/-- `trimRightSet` produces a prefix of its input. -/
theorem trimRightSet_isPre (cut : List Char) (l : List Char) :
    ∃ t, trimRightSet cut l ++ t = l := by
  have hs : (l.reverse.dropWhile (fun c => c ∈ cut)) <:+ l.reverse :=
    List.dropWhile_suffix _
  obtain ⟨u, hu⟩ := hs
  refine ⟨u.reverse, ?_⟩
  have := congrArg List.reverse hu
  simpa [trimRightSet] using this

/-- The last character surviving `trimRightSet` is outside the cutset. -/
theorem getLast?_trimRightSet (cut : List Char) (l : List Char) (c : Char)
    (h : (trimRightSet cut l).getLast? = some c) : c ∉ cut := by
  rw [List.getLast?_eq_head?_reverse] at h
  simp only [trimRightSet, List.reverse_reverse] at h
  intro hmem
  have := head?_dropWhile (fun c => c ∈ cut) l.reverse c h
  simp [hmem] at this

/-- `trimRightSet` keeps a list whose head lies outside the cutset
nonempty, with the same head. -/
theorem trimRightSet_ne_nil (cut : List Char) (l : List Char) (c : Char)
    (hh : l.head? = some c) (hc : c ∉ cut) :
    trimRightSet cut l ≠ [] ∧ (trimRightSet cut l).head? = some c := by
  have hne : trimRightSet cut l ≠ [] := by
    intro hnil
    have hall : ∀ x ∈ l.reverse, (fun c => decide (c ∈ cut)) x = true := by
      apply List.dropWhile_eq_nil_iff.1
      have := congrArg List.reverse hnil
      simpa [trimRightSet] using this
    have hcl : c ∈ l := by
      cases l with
      | nil => simp at hh
      | cons a rest =>
        simp only [List.head?_cons, Option.some_inj] at hh
        subst hh
        simp
    have := hall c (by simpa using hcl)
    simp at this
    exact hc this
  obtain ⟨t, ht⟩ := trimRightSet_isPre cut l
  refine ⟨hne, ?_⟩
  rw [← hh]
  exact (head?_of_append _ t l ht hne).symm

/-- Bytes of a prefix are bounded by bytes of the whole list. -/
theorem utf8Len_isPre_le (l t l2 : List Char) (h : l ++ t = l2) :
    utf8Len l ≤ utf8Len l2 := by
  subst h
  simp [utf8Len]

/-- Membership in `trimSet` output implies membership in the input. -/
theorem trimSet_subset (cut : List Char) (l : List Char) :
    ∀ c ∈ trimSet cut l, c ∈ l := by
  intro c hc
  simp only [trimSet, List.mem_reverse] at hc
  have h1 := (List.dropWhile_sublist (l := (l.dropWhile (fun c => c ∈ cut)).reverse)
    (p := (fun c => c ∈ cut))).subset hc
  simp only [List.mem_reverse] at h1
  exact (List.dropWhile_sublist _).subset h1

/-- `trimSet` preserves absence of consecutive underscores. -/
theorem trimSet_chain (cut : List Char) (l : List Char)
    (h : List.Chain' (fun a b => ¬ (a = '_' ∧ b = '_')) l) :
    List.Chain' (fun a b => ¬ (a = '_' ∧ b = '_')) (trimSet cut l) := by
  have hswap : ∀ (x y : Char), ¬ (x = '_' ∧ y = '_') → ¬ (y = '_' ∧ x = '_') :=
    fun x y hxy hyx => hxy ⟨hyx.2, hyx.1⟩
  have h1 : List.Chain' (fun a b => ¬ (a = '_' ∧ b = '_')) (l.dropWhile (fun c => c ∈ cut)) :=
    h.suffix (List.dropWhile_suffix _)
  have h2 : List.Chain' (fun a b => ¬ (a = '_' ∧ b = '_'))
      ((l.dropWhile (fun c => c ∈ cut)).reverse) := by
    rw [List.chain'_reverse]
    exact h1.imp hswap
  have h3 := h2.suffix (List.dropWhile_suffix (fun c => c ∈ cut))
  simpa only [trimSet, List.chain'_reverse] using
    (List.chain'_reverse.2 (h3.imp hswap))

/-- Every character surviving the sanitize stages is neither a reserved
character nor a control character. -/
theorem sanitizePre_chars (s : String) :
    ∀ c ∈ sanitizePre s, c ∉ invalidChars ∧ isCtl c = false := by
  intro c hc
  simp only [sanitizePre] at hc
  have h4 := trimSet_subset _ _ c hc
  have h3 := collapseU_subset _ c h4
  simp only [List.mem_map] at h3
  obtain ⟨b, hb, hbc⟩ := h3
  obtain ⟨a, ha, hab⟩ := hb
  have hactl : isCtl a = false := by
    simpa using (List.mem_filter.1 ha).2
  subst hbc
  subst hab
  by_cases hpr : isPrintModel (if a ∈ invalidChars then '_' else a) = true ∧
      (if a ∈ invalidChars then '_' else a) ≠ replacementChar
  · rw [if_pos hpr]
    by_cases hin : a ∈ invalidChars
    · rw [if_pos hin]
      exact ⟨by decide, by decide⟩
    · rw [if_neg hin]
      exact ⟨hin, hactl⟩
  · rw [if_neg hpr]
    exact ⟨by decide, by decide⟩

/-- The sanitize stages leave no run of consecutive underscores. -/
theorem sanitizePre_chain (s : String) :
    List.Chain' (fun a b => ¬ (a = '_' ∧ b = '_')) (sanitizePre s) :=
  trimSet_chain _ _ (collapseU_chain _)

/-- `trimSet` written as a left trim followed by `trimRightSet`. -/
theorem trimSet_eq_trimRight (cut : List Char) (l : List Char) :
    trimSet cut l = trimRightSet cut (l.dropWhile (fun c => c ∈ cut)) := rfl

/-- The head surviving `trimSet` is outside the cutset. -/
theorem head?_trimSet (cut : List Char) (l : List Char) (c : Char)
    (h : (trimSet cut l).head? = some c) : c ∉ cut := by
  rw [trimSet_eq_trimRight] at h
  obtain ⟨t, ht⟩ := trimRightSet_isPre cut (l.dropWhile (fun c => c ∈ cut))
  have hh := head?_of_append _ t _ ht (by intro hnil; rw [hnil] at h; simp at h)
  rw [h] at hh
  have := head?_dropWhile (fun c => c ∈ cut) l c hh
  simpa using this

/-- The last character surviving `trimSet` is outside the cutset. -/
theorem getLast?_trimSet (cut : List Char) (l : List Char) (c : Char)
    (h : (trimSet cut l).getLast? = some c) : c ∉ cut := by
  rw [trimSet_eq_trimRight] at h
  exact getLast?_trimRightSet _ _ c h

/-- The first surviving character is not a space, dot or underscore. -/
theorem sanitizePre_head (s : String) (c : Char)
    (h : (sanitizePre s).head? = some c) : c ∉ [' ', '.', '_'] := by
  simp only [sanitizePre] at h
  exact head?_trimSet _ _ c h

/-- The last surviving character is not a space, dot or underscore. -/
theorem sanitizePre_getLast (s : String) (c : Char)
    (h : (sanitizePre s).getLast? = some c) : c ∉ [' ', '.', '_'] := by
  simp only [sanitizePre] at h
  exact getLast?_trimSet _ _ c h

/-- A list containing no underscore trivially has no underscore run. -/
theorem chain'_of_no_underscore :
    ∀ (l : List Char), (∀ c ∈ l, c ≠ '_') →
      List.Chain' (fun a b => ¬ (a = '_' ∧ b = '_')) l := by
  intro l
  induction l with
  | nil => intro _; simp
  | cons a rest ih =>
    intro h
    cases rest with
    | nil => simp
    | cons b rest2 =>
      refine List.chain'_cons.2 ⟨?_, ih (fun c hc => h c (by simp [List.mem_cons.1 hc]))⟩
      intro hab
      exact h a (by simp) hab.1

set_option maxRecDepth 10000 in
/-- Claim C10 is false on the code at a concrete input: for 199 `a`s, a
dot, then ten `b`s (210 bytes, nothing else to sanitize), the 200-byte
truncation cuts right after the dot and only underscores are re-trimmed,
so the result ends in a dot — contradicting "no trailing space, dot, or
underscore". -/
theorem sanitize_filename_cex :
    (SanitizeFilename
        (String.mk (List.replicate 199 'a' ++ '.' :: List.replicate 10 'b'))).toList.getLast?
      = some '.' := by decide

/-- Claim C10 amended: `SanitizeFilename` always returns a non-empty
string of at most 200 UTF-8 bytes containing no reserved character
(`< > : " / \ | ? *`), no control character in `0x00`–`0x1F`, and no run
of two consecutive underscores; its first character is never a space,
dot or underscore and its last character is never an underscore; the
last character is also guaranteed not to be a space or dot *only when no
200-byte truncation was needed* (a truncated result can end in space or
dot, as only underscores are re-trimmed after the cut). -/
theorem sanitize_filename_amended (s : String) :
    SanitizeFilename s ≠ "" ∧
    utf8Len (SanitizeFilename s).toList ≤ 200 ∧
    (∀ c ∈ (SanitizeFilename s).toList, c ∉ invalidChars ∧ isCtl c = false) ∧
    List.Chain' (fun a b => ¬ (a = '_' ∧ b = '_')) (SanitizeFilename s).toList ∧
    (∀ c, (SanitizeFilename s).toList.head? = some c → c ∉ [' ', '.', '_']) ∧
    (∀ c, (SanitizeFilename s).toList.getLast? = some c → c ≠ '_') ∧
    (utf8Len (sanitizePre s) ≤ 200 →
      ∀ c, (SanitizeFilename s).toList.getLast? = some c → c ∉ [' ', '.', '_']) := by
  by_cases hs : s = ""
  · subst hs
    exact ⟨by decide, by decide, by decide, chain'_of_no_underscore _ (by decide),
      by decide, by decide, fun _ => by decide⟩
  · by_cases h5 : sanitizePre s = []
    · simp only [SanitizeFilename, if_neg hs, h5, if_pos rfl, if_true]
      exact ⟨by decide, by decide, by decide, chain'_of_no_underscore _ (by decide),
        by decide, by decide, fun _ => by decide⟩
    · obtain ⟨hd, tl, h5eq⟩ : ∃ hd tl, sanitizePre s = hd :: tl := by
        cases hc : sanitizePre s with
        | nil => exact absurd hc h5
        | cons a b => exact ⟨a, b, rfl⟩
      have hhd : hd ∉ [' ', '.', '_'] :=
        sanitizePre_head s hd (by rw [h5eq]; rfl)
      have hhdu : hd ≠ '_' := by
        intro h
        exact hhd (by simp [h])
      by_cases hlen : 200 < utf8Len (sanitizePre s)
      · -- truncation branch
        have hres : SanitizeFilename s
            = String.mk (trimRightSet ['_'] (takeBytes 200 (sanitizePre s))) := by
          simp only [SanitizeFilename, if_neg hs, if_neg h5, if_pos hlen]
        have htk_head : (takeBytes 200 (sanitizePre s)).head? = some hd := by
          rw [h5eq]
          simp only [takeBytes]
          rw [if_pos (Nat.le_trans hd.utf8Size_le_four (by omega))]
          rfl
        obtain ⟨hne, hhead⟩ := trimRightSet_ne_nil ['_'] (takeBytes 200 (sanitizePre s)) hd
          htk_head (by simpa using hhdu)
        obtain ⟨t1, ht1⟩ := trimRightSet_isPre ['_'] (takeBytes 200 (sanitizePre s))
        obtain ⟨t2, ht2⟩ := takeBytes_isPre 200 (sanitizePre s)
        have hsub : ∀ c ∈ trimRightSet ['_'] (takeBytes 200 (sanitizePre s)),
            c ∈ sanitizePre s := by
          intro c hc
          have h1 : c ∈ takeBytes 200 (sanitizePre s) := by
            rw [← ht1]; exact List.mem_append.2 (Or.inl hc)
          rw [← ht2]; exact List.mem_append.2 (Or.inl h1)
        refine ⟨?_, ?_, ?_, ?_, ?_, ?_, ?_⟩
        · rw [hres]
          intro hcon
          apply hne
          have : (String.mk (trimRightSet ['_'] (takeBytes 200 (sanitizePre s)))).data
              = ("" : String).data := by rw [hcon]
          simpa using this
        · rw [hres]
          exact Nat.le_trans (utf8Len_isPre_le _ t1 _ ht1) (takeBytes_le 200 _)
        · rw [hres]
          intro c hc
          exact sanitizePre_chars s c (hsub c hc)
        · rw [hres]
          have h2 : List.Chain' (fun a b => ¬ (a = '_' ∧ b = '_'))
              (takeBytes 200 (sanitizePre s)) := by
            have h := sanitizePre_chain s
            rw [← ht2] at h
            exact h.left_of_append
          rw [← ht1] at h2
          exact h2.left_of_append
        · rw [hres]
          intro c hc
          replace hc : (trimRightSet ['_'] (takeBytes 200 (sanitizePre s))).head?
              = some c := hc
          rw [hhead] at hc
          cases hc
          exact hhd
        · rw [hres]
          intro c hc
          have := getLast?_trimRightSet ['_'] (takeBytes 200 (sanitizePre s)) c hc
          simpa using this
        · intro hcon
          omega
      · -- no truncation
        have hres : SanitizeFilename s = String.mk (sanitizePre s) := by
          simp only [SanitizeFilename, if_neg hs, if_neg h5, if_neg hlen]
        refine ⟨?_, ?_, ?_, ?_, ?_, ?_, ?_⟩
        · rw [hres]
          intro hcon
          apply h5
          have : (String.mk (sanitizePre s)).data = ("" : String).data := by rw [hcon]
          simpa using this
        · rw [hres]
          show utf8Len (sanitizePre s) ≤ 200
          omega
        · rw [hres]
          exact sanitizePre_chars s
        · rw [hres]
          exact sanitizePre_chain s
        · rw [hres]
          exact fun c hc => sanitizePre_head s c hc
        · rw [hres]
          intro c hc
          have := sanitizePre_getLast s c hc
          intro h
          exact this (by simp [h])
        · intro _
          rw [hres]
          exact fun c hc => sanitizePre_getLast s c hc

/-- Witness for `sanitize_filename_amended` at a concrete input
(discharging the no-truncation hypothesis of the final clause). -/
theorem sanitize_filename_amended_w :
    SanitizeFilename "  my:file.txt  " ≠ "" ∧
    (∀ c, (SanitizeFilename "  my:file.txt  ").toList.getLast? = some c →
      c ∉ [' ', '.', '_']) := by
  exact ⟨(sanitize_filename_amended "  my:file.txt  ").1,
    (sanitize_filename_amended "  my:file.txt  ").2.2.2.2.2.2 (by decide)⟩

end Briefly
